import Mathlib

/-!
Verification of the pydedupe blocking/comparison/classification core.

Shallow embedding of:
- `dedupe/indexer.py`: `Index.insert`, `Index.count_comparisons`,
  `SetComparator.__call__`, `RecordComparator.compare_all_pairs`,
  `RecordComparator.compare_indexed_single`, `RecordComparator.compare_indexed_dual`.
- `dedupe/classification/_kmeans.py`: `kmeans`.
- `dedupe/classification/rulebased.py`: `classify_bool`.

Modelling conventions:
- A record is an opaque tuple whose first field is the identifier
  (`indexer.py` header: "Record ID is always assumed to be the first field").
  We model `Record := ℕ × ℕ` (identifier, payload).
- Python dicts are modelled as association lists in insertion order; a
  `set` of records is modelled as a duplicate-free list in iteration order
  (Python set iteration order is arbitrary, so theorems quantify over it).
- Python floats are modelled as ℚ (the claims under study are about control
  flow, ordering and sign, not float rounding).
- Fallible code (KeyError from `dict.popitem`, ValueError from `max()` on an
  empty sequence, ZeroDivisionError, the ValueError raised by
  `classify_bool`, a failing `assert`) is modelled with `Except`/`Option`.
-/

/-- A record: first component is the unique identifier, second the payload. -/
abbrev Record : Type := ℕ × ℕ

/-- An index key. Python key truthiness (`if key:`) is modelled as `k ≠ ""`. -/
abbrev IndexKey : Type := String

/-- `Index` (a `dict` from index key to the set of records sharing that key):
association list from key to bucket, buckets in set-iteration order. -/
abbrev Index : Type := List (IndexKey × List Record)

/-- Association-list lookup, mirroring Python `d[k]` / `k in d`. -/
def alookup {κ ν : Type} [DecidableEq κ] : List (κ × ν) → κ → Option ν
  | [], _ => none
  | (k, v) :: rest, key => if k = key then some v else alookup rest key

/-- `set.add`: add a record to a bucket if not already present. -/
def bucketAdd (recs : List Record) (r : Record) : List Record :=
  if r ∈ recs then recs else recs ++ [r]

/-- `self.setdefault(key, set()).add(record)`: add `r` to the bucket of `key`,
creating the bucket if absent. -/
def indexAdd : Index → IndexKey → Record → Index
  | [], key, r => [(key, [r])]
  | (k, recs) :: rest, key, r =>
    if k = key then (k, bucketAdd recs r) :: rest
    else (k, recs) :: indexAdd rest key r

/-- `Index.insert` (indexer.py:55-69): compute the keys of `r`, then for each
key, if the key is truthy add `r` to its bucket, else skip it silently
(`if key: # Skip over non-keys like "", 0, None`).  Returns `(keys, index)`,
mirroring `return keys` plus the mutated index. -/
def index_insert (makekey : Record → List IndexKey) (idx : Index) (r : Record) :
    List IndexKey × Index :=
  (makekey r, (makekey r).foldl (fun acc k => if k = "" then acc else indexAdd acc k r) idx)

/-- `Index.count_comparisons` self branch (indexer.py:79-83): sum over buckets
of `len(recs)*(len(recs)-1)//2` for buckets with more than one record. -/
def count_comparisons_self (idx : Index) : ℕ :=
  idx.foldl (fun acc kv =>
    if 1 < kv.2.length then acc + kv.2.length * (kv.2.length - 1) / 2 else acc) 0

/-- `Index.count_comparisons` dual branch (indexer.py:84-88): sum over keys of
`self` also present in `other` of `len(self[key]) * len(other[key])`. -/
def count_comparisons_dual (idx other : Index) : ℕ :=
  idx.foldl (fun acc kv =>
    match alookup other kv.1 with
    | some b => acc + kv.2.length * b.length
    | none => acc) 0

/-- `concatMap` helper (Python nested `for` loops flattened). -/
def concatMap {α β : Type} (f : α → List β) : List α → List β
  | [] => []
  | x :: xs => f x ++ concatMap f xs

/-- Enumeration `for i in range(len(l)): for j in range(i): yield (l[i], l[j])`,
carrying the prefix of already-seen elements. -/
def pairsAux {α : Type} : List α → List α → List (α × α)
  | _, [] => []
  | seen, x :: xs => seen.map (fun s => (x, s)) ++ pairsAux (seen ++ [x]) xs

/-- All pairs `(l[i], l[j])` with `j < i`, in enumeration order. -/
def pairsLT {α : Type} (l : List α) : List (α × α) := pairsAux [] l

/-- The comparisons mapping `{(rec1, rec2): weights}`; `ω` is the weight
vector type produced by `RecordComparator.compare` (opaque here). -/
abbrev Comparisons (ω : Type) : Type := List ((Record × Record) × ω)

/-- One step of the indexed drivers (indexer.py:265-267 and :284-286):
`if pair not in comparisons: comparisons[pair] = self.compare(*pair)`.
The second component instruments the run: it records each pair on which the
comparison function is actually invoked. -/
def cisStep {ω : Type} (cmp : Record → Record → ω)
    (acc : Comparisons ω × List (Record × Record)) (p : Record × Record) :
    Comparisons ω × List (Record × Record) :=
  match alookup acc.1 p with
  | some _ => acc
  | none => (acc.1 ++ [(p, cmp p.1 p.2)], acc.2 ++ [p])

/-- Candidate-pair stream of `compare_indexed_single` (indexer.py:260-265):
for each index, for each bucket, all pairs `(records[i], records[j])`, `j < i`. -/
def candidatePairsSingle (indeces : List Index) : List (Record × Record) :=
  concatMap (fun idx => concatMap (fun kv => pairsLT kv.2) idx) indeces

/-- `RecordComparator.compare_indexed_single` (indexer.py:253-268), instrumented:
returns the comparisons mapping and the list of comparator invocations. -/
def cisRun {ω : Type} (cmp : Record → Record → ω) (indeces : List Index) :
    Comparisons ω × List (Record × Record) :=
  (candidatePairsSingle indeces).foldl (cisStep cmp) ([], [])

/-- `RecordComparator.compare_indexed_single`: the returned mapping. -/
def compare_indexed_single {ω : Type} (cmp : Record → Record → ω)
    (indeces : List Index) : Comparisons ω :=
  (cisRun cmp indeces).1

/-- Candidate-pair stream of `compare_indexed_dual` (indexer.py:279-284):
for corresponding indices (`zip`), for each key of the first index present in
the second, the cross product of the two buckets. -/
def candidatePairsDual (ind1 ind2 : List Index) : List (Record × Record) :=
  concatMap (fun pr : Index × Index =>
    concatMap (fun kv =>
      match alookup pr.2 kv.1 with
      | some recs2 => concatMap (fun r1 => recs2.map (fun r2 => (r1, r2))) kv.2
      | none => []) pr.1) (ind1.zip ind2)

/-- `RecordComparator.compare_indexed_dual` (indexer.py:270-287), instrumented. -/
def cidRun {ω : Type} (cmp : Record → Record → ω) (ind1 ind2 : List Index) :
    Comparisons ω × List (Record × Record) :=
  (candidatePairsDual ind1 ind2).foldl (cisStep cmp) ([], [])

/-- `RecordComparator.compare_indexed_dual`: the returned mapping. -/
def compare_indexed_dual {ω : Type} (cmp : Record → Record → ω)
    (ind1 ind2 : List Index) : Comparisons ω :=
  (cidRun cmp ind1 ind2).1

/-- One step of `compare_all_pairs` (indexer.py:238-242):
`assert rec1[0] != rec2[0]` (a failing assert aborts: `none`), then
`pair = tuple(sorted([rec1, rec2], key=lambda x: x[0]))` (stable two-element
sort: swap exactly when `rec2[0] < rec1[0]`), then insert if absent, with the
value computed as `self.compare(rec1, rec2)` on the unsorted pair. -/
def capStep {ω : Type} (cmp : Record → Record → ω) (acc : Comparisons ω)
    (rr : Record × Record) : Option (Comparisons ω) :=
  if rr.1.1 = rr.2.1 then none
  else
    let pair := if rr.2.1 < rr.1.1 then (rr.2, rr.1) else (rr.1, rr.2)
    match alookup acc pair with
    | some _ => some acc
    | none => some (acc ++ [(pair, cmp rr.1 rr.2)])

/-- `RecordComparator.compare_all_pairs` (indexer.py:228-243): fold of
`capStep` over the `(records[i], records[j])`, `j < i` enumeration;
`none` models an `AssertionError` on duplicate identifiers. -/
def compare_all_pairs {ω : Type} (cmp : Record → Record → ω)
    (records : List Record) : Option (Comparisons ω) :=
  (pairsLT records).foldl (fun acc rr => acc.bind (fun c => capStep cmp c rr)) (some [])

/-! ## SetComparator (indexer.py:184-204) -/

/-- Inner loop of `SetComparator.__call__` (indexer.py:198-203):
`best = 0.0; for v2 in f2: best = max(best, comparevalues(v1, v2))`.
Python 2 `max(best, None)` returns `best` (in Python 2, `None` compares below
every float), so a `None` comparison value leaves `best` unchanged. -/
def setBest {α : Type} (cv : Option α → Option α → Option ℚ) (v1 : α)
    (big : List α) : ℚ :=
  big.foldl (fun best v2 =>
    match cv (some v1) (some v2) with
    | none => best
    | some q => max best q) 0

/-- `SetComparator.__call__` (indexer.py:184-204), taking the already
extracted-and-encoded value sets of the two records (as duplicate-free lists).
`sorted([f1, f2], key=len)` is stable, so the sets swap exactly when the
second is strictly shorter.  If either set is empty the result is
`comparevalues(None, None)`; otherwise the average over the small set of each
element's `best` against the large set. -/
def set_comparator {α : Type} (cv : Option α → Option α → Option ℚ)
    (s1 s2 : List α) : Option ℚ :=
  let p := if s2.length < s1.length then (s2, s1) else (s1, s2)
  if p.1.length = 0 ∨ p.2.length = 0 then cv none none
  else some (((p.1.map (fun v1 => setBest cv v1 p.2)).sum) / (p.1.length : ℚ))

/-- The spec's reading of the non-empty case, for refutation: "the average,
over each element of the smaller set, of that element's best similarity score
against any element of the larger set" — `best` here is the true maximum of
the scores the primitive actually returns (no clamping at 0.0), with a
scoreless element contributing 0. -/
def setBestSpec {α : Type} (cv : Option α → Option α → Option ℚ) (v1 : α)
    (big : List α) : Option ℚ :=
  big.foldl (fun best v2 =>
    match cv (some v1) (some v2), best with
    | none, b => b
    | some q, none => some q
    | some q, some b => some (max b q)) none

/-- Spec-worded set comparator, to be compared against `set_comparator`. -/
def set_comparator_spec {α : Type} (cv : Option α → Option α → Option ℚ)
    (s1 s2 : List α) : Option ℚ :=
  let p := if s2.length < s1.length then (s2, s1) else (s1, s2)
  if p.1.length = 0 ∨ p.2.length = 0 then cv none none
  else some (((p.1.map (fun v1 => (setBestSpec cv v1 p.2).getD 0)).sum) / (p.1.length : ℚ))

/-! ## Rule-based classifier (rulebased.py:12-38) -/

/-- The value a Python rule may return: `True`, `False`, `None`, or anything
else (carrying its `repr`). -/
inductive PyRuleValue : Type
  | pyTrue : PyRuleValue
  | pyFalse : PyRuleValue
  | pyNone : PyRuleValue
  | pyOther : String → PyRuleValue
deriving DecidableEq

/-- Is the rule value outside {True, False, None}? -/
def isOtherValue : PyRuleValue → Bool
  | .pyOther _ => true
  | _ => false

/-- The `repr(ismatch)` used in the error message (meaningful on `pyOther`). -/
def ruleValueRepr : PyRuleValue → String
  | .pyTrue => "True"
  | .pyFalse => "False"
  | .pyNone => "None"
  | .pyOther r => r

/-- The ValueError message of rulebased.py:34:
`"rulebased classify: %s is not True/False/None" % repr(ismatch)`.
Note it interpolates the rule's return value, not the similarity vector. -/
def classifyErrMsg (v : PyRuleValue) : String :=
  "rulebased classify: " ++ ruleValueRepr v ++ " is not True/False/None"

/-- A similarity vector as seen by the classifiers: components are scores or
the missing marker `None`. -/
abbrev SimVec : Type := List (Option ℚ)

/-- Loop of `classify_bool` (rulebased.py:25-34) with the three sets as
accumulators (sets modelled as lists in insertion order). -/
def classifyBoolGo (rule : SimVec → PyRuleValue)
    (ms ns us : List ℕ) : List (ℕ × SimVec) →
    Except String (List ℕ × List ℕ × List ℕ)
  | [] => .ok (ms, ns, us)
  | (pair, sv) :: rest =>
    match rule sv with
    | .pyTrue => classifyBoolGo rule (ms ++ [pair]) ns us rest
    | .pyFalse => classifyBoolGo rule ms (ns ++ [pair]) us rest
    | .pyNone => classifyBoolGo rule ms ns (us ++ [pair]) rest
    | .pyOther r => .error (classifyErrMsg (.pyOther r))

/-- `classify_bool` (rulebased.py:12-38): partition pairs by the rule's value
on their similarity vector; raise ValueError on any other return value.
Record pairs are opaque to the classifier and modelled as ℕ. -/
def classify_bool (rule : SimVec → PyRuleValue)
    (comparisons : List (ℕ × SimVec)) :
    Except String (List ℕ × List ℕ × List ℕ) :=
  classifyBoolGo rule [] [] [] comparisons

/-! ## K-means classifier (_kmeans.py:40-115) -/

/-- The exceptions the `kmeans` function can raise. -/
inductive KmeansError : Type
  | keyError : KmeansError
  | valueError : KmeansError
  | zeroDivisionError : KmeansError
deriving DecidableEq

/-- The comparisons dict fed to `kmeans`: pair (opaque, modelled ℕ) to vector. -/
abbrev KComparisons : Type := List (ℕ × SimVec)

/-- Python `d[k] = v` on a dict: replace the value if the key is present,
else append the new entry. -/
def dictInsert : KComparisons → ℕ → SimVec → KComparisons
  | [], k, v => [(k, v)]
  | (k0, v0) :: rest, k, v =>
    if k0 = k then (k0, v) :: rest else (k0, v0) :: dictInsert rest k v

/-- Column `i` of the comparison vectors: the non-`None` values `x[i]`
(`for x in comparisons.itervalues() if x[i] is not None`).  Vectors have the
fixed arity `vlen` (spec data model), so `getD i none` is exact there. -/
def kmeansColumn (comps : KComparisons) (i : ℕ) : List ℚ :=
  comps.filterMap (fun kv => kv.2.getD i none)

/-- Initial centroid (_kmeans.py:68-71): per component the `max` (resp. `min`)
of the non-`None` values; Python `max()`/`min()` on an empty sequence raises
ValueError. -/
def initCentroid (g : ℚ → ℚ → ℚ) (comps : KComparisons) :
    List ℕ → Except KmeansError (List ℚ)
  | [] => .ok []
  | i :: is =>
    match kmeansColumn comps i with
    | [] => .error .valueError
    | q :: qs =>
      match initCentroid g comps is with
      | .error e => .error e
      | .ok rest => .ok ((qs.foldl g q) :: rest)

/-- Loop state of `kmeans`: the assignments dict (pair, vector, match flag),
the two centroids, `iters`, `n_changed`, plus an instrumentation log of the
`n_changed` value recorded by each completed pass. -/
structure KmeansState : Type where
  assignments : List (ℕ × SimVec × Bool)
  high : List ℚ
  low : List ℚ
  iters : ℕ
  nChanged : ℕ
  changedLog : List ℕ
deriving DecidableEq

/-- Accumulator of one assignment pass: rebuilt assignments, `n_changed`,
class totals and non-`None` counts per component. -/
structure KmeansPassAcc : Type where
  assign : List (ℕ × SimVec × Bool)
  nch : ℕ
  highTotal : List ℚ
  lowTotal : List ℚ
  highCount : List ℕ
  lowCount : List ℕ

/-- `for i in vidx: if v[i] is not None: total[i] += v[i]; count[i] += 1`. -/
def bumpTotals (vlen : ℕ) (v : SimVec) (tot : List ℚ) (cnt : List ℕ) :
    List ℚ × List ℕ :=
  ((List.range vlen).map fun i =>
      match v.getD i none with
      | some q => tot.getD i 0 + q
      | none => tot.getD i 0,
   (List.range vlen).map fun i =>
      match v.getD i none with
      | some _ => cnt.getD i 0 + 1
      | none => cnt.getD i 0)

/-- One entry of the assignment loop (_kmeans.py:90-108): compute the two
distances, assign to the nearer centroid (ties to non-match), count the flip,
and accumulate the totals of the newly assigned class. -/
def kmeansAssignStep (dist : SimVec → List ℚ → ℚ) (vlen : ℕ)
    (high low : List ℚ) (acc : KmeansPassAcc) (entry : ℕ × SimVec × Bool) :
    KmeansPassAcc :=
  let k := entry.1
  let v := entry.2.1
  let m := entry.2.2
  if dist v high < dist v low then
    let ht := bumpTotals vlen v acc.highTotal acc.highCount
    { acc with
      assign := acc.assign ++ [(k, v, true)],
      nch := acc.nch + (if m then 0 else 1),
      highTotal := ht.1, highCount := ht.2 }
  else
    let lt := bumpTotals vlen v acc.lowTotal acc.lowCount
    { acc with
      assign := acc.assign ++ [(k, v, false)],
      nch := acc.nch + (if m then 1 else 0),
      lowTotal := lt.1, lowCount := lt.2 }

/-- Centroid recomputation (_kmeans.py:110-111):
`[total[i]/count[i] for i in vidx]`; a zero count raises ZeroDivisionError. -/
def centroidMean (tot : List ℚ) (cnt : List ℕ) :
    List ℕ → Except KmeansError (List ℚ)
  | [] => .ok []
  | i :: is =>
    if cnt.getD i 0 = 0 then .error .zeroDivisionError
    else
      match centroidMean tot cnt is with
      | .error e => .error e
      | .ok rest => .ok ((tot.getD i 0 / (cnt.getD i 0 : ℚ)) :: rest)

/-- One full pass of the while-loop body (_kmeans.py:79-111): reset
`n_changed`, bump `iters`, run the assignment loop over all entries, then
recompute both centroids from the fresh totals. -/
def kmeansPass (dist : SimVec → List ℚ → ℚ) (vlen : ℕ) (s : KmeansState) :
    Except KmeansError KmeansState :=
  let z : KmeansPassAcc :=
    { assign := [], nch := 0,
      highTotal := List.replicate vlen 0, lowTotal := List.replicate vlen 0,
      highCount := List.replicate vlen 0, lowCount := List.replicate vlen 0 }
  let r := s.assignments.foldl (kmeansAssignStep dist vlen s.high s.low) z
  match centroidMean r.highTotal r.highCount (List.range vlen) with
  | .error e => .error e
  | .ok newHigh =>
    match centroidMean r.lowTotal r.lowCount (List.range vlen) with
    | .error e => .error e
    | .ok newLow =>
      .ok { assignments := r.assign, high := newHigh, low := newLow,
            iters := s.iters + 1, nChanged := r.nch,
            changedLog := s.changedLog ++ [r.nch] }

/-- The while loop (_kmeans.py:78): `while n_changed >= 0 and iters < maxiter`.
The fuel argument is `maxiter - iters`, so `fuel > 0` is exactly
`iters < maxiter`; the `n_changed >= 0` conjunct is kept verbatim from the
source. -/
def kmeansLoop (dist : SimVec → List ℚ → ℚ) (vlen : ℕ) :
    ℕ → KmeansState → Except KmeansError KmeansState
  | 0, s => .ok s
  | fuel + 1, s =>
    if s.nChanged ≥ 0 then
      match kmeansPass dist vlen s with
      | .error e => .error e
      | .ok s2 => kmeansLoop dist vlen fuel s2
    else .ok s

/-- `kmeans` (_kmeans.py:40-115), instrumented: returns the final loop state
together with the comparisons dict as it stands after the call (the function
pops one item to measure the vector arity and reinserts it, _kmeans.py:58-61).
`comparisons.popitem()` on an empty dict raises KeyError. -/
def kmeansRun (dist : SimVec → List ℚ → ℚ) (maxiter : ℕ)
    (comparisons : KComparisons) :
    Except KmeansError (KmeansState × KComparisons) :=
  match comparisons.getLast? with
  | none => .error .keyError
  | some kv =>
    let rest := comparisons.dropLast
    let vlen := kv.2.length
    let comps2 := dictInsert rest kv.1 kv.2
    let assigns := comps2.map (fun c => (c.1, c.2, false))
    match initCentroid max comps2 (List.range vlen) with
    | .error e => .error e
    | .ok high =>
      match initCentroid min comps2 (List.range vlen) with
      | .error e => .error e
      | .ok low =>
        match kmeansLoop dist vlen maxiter
            { assignments := assigns, high := high, low := low,
              iters := 0, nChanged := 1, changedLog := [] } with
        | .error e => .error e
        | .ok s => .ok (s, comps2)

/-- `kmeans`: the returned `(matches, nomatches)` sets (_kmeans.py:113-115)
plus the post-call comparisons dict. -/
def kmeans (dist : SimVec → List ℚ → ℚ) (maxiter : ℕ)
    (comparisons : KComparisons) :
    Except KmeansError ((List ℕ × List ℕ) × KComparisons) :=
  match kmeansRun dist maxiter comparisons with
  | .error e => .error e
  | .ok (s, c) =>
    .ok ((s.assignments.filterMap (fun a => if a.2.2 then some a.1 else none),
          s.assignments.filterMap (fun a => if a.2.2 then none else some a.1)), c)

/-! ## Concrete inputs used by counterexamples and witnesses -/

/-- Record with identifier 1. -/
def recA : Record := (1, 0)

/-- Record with identifier 2. -/
def recB : Record := (2, 0)

/-- A trivial comparator weight function. -/
def cmp0 : Record → Record → ℕ := fun _ _ => 0

/-- Two indices both bucketing `recA` and `recB`, whose set-iteration orders
present the two records in opposite orders. -/
def indBothOrders : List Index := [[("k", [recA, recB])], [("j", [recB, recA])]]

/-- One index whose single bucket lists `recA` (smaller id) first, so the
enumerated pair is `(recB, recA)`. -/
def indPlain : List Index := [[("k", [recA, recB])]]

/-- Similarity primitive that scores every pairing -1. -/
def cvNeg : Option ℕ → Option ℕ → Option ℚ := fun _ _ => some (-1)

/-- L1 distance between a vector and a centroid, skipping `None` components. -/
def distL1 (v : SimVec) (c : List ℚ) : ℚ :=
  ((v.zip c).map fun p =>
    match p.1 with
    | none => 0
    | some q => |q - p.2|).sum

/-- Two one-component comparison vectors, 0 and 1. -/
def kcomps2 : KComparisons := [(1, [some 0]), (2, [some 1])]

/-- Rule returning the invalid sentinel `"yes"` (its repr) on every vector. -/
def ruleYes : SimVec → PyRuleValue := fun _ => .pyOther "yes"

/-- Vector with a single high score. -/
def vecHigh : SimVec := [some 1]

/-- Vector with a single low score. -/
def vecLow : SimVec := [some 0]

/-- A well-behaved rule: match iff the first component is positive. -/
def rulePos : SimVec → PyRuleValue := fun sv =>
  match sv.getD 0 none with
  | some q => if 0 < q then .pyTrue else .pyFalse
  | none => .pyNone

/-- The kmeans loop state after initialization on `kcomps2`
(initial centroids `high = [1]`, `low = [0]`, everything in the non-match
class, `n_changed = 1`). -/
def ks0 : KmeansState :=
  { assignments := [(1, [some 0], false), (2, [some 1], false)],
    high := [1], low := [0], iters := 0, nChanged := 1, changedLog := [] }

/-- State after pass 1 on `kcomps2`: pair 2 flipped to the match class. -/
def ks1 : KmeansState :=
  { assignments := [(1, [some 0], false), (2, [some 1], true)],
    high := [1], low := [0], iters := 1, nChanged := 1, changedLog := [1] }

/-- State after pass 2 on `kcomps2`: nothing changed (`n_changed = 0`). -/
def ks2 : KmeansState :=
  { assignments := [(1, [some 0], false), (2, [some 1], true)],
    high := [1], low := [0], iters := 2, nChanged := 0, changedLog := [1, 0] }

/-- State after pass 3 on `kcomps2`: still nothing changed. -/
def ks3 : KmeansState :=
  { assignments := [(1, [some 0], false), (2, [some 1], true)],
    high := [1], low := [0], iters := 3, nChanged := 0, changedLog := [1, 0, 0] }

/-! ## Helper lemmas -/

theorem alookup_eq_none_iff {κ ν : Type} [DecidableEq κ] (l : List (κ × ν)) (k : κ) :
    alookup l k = none ↔ k ∉ l.map Prod.fst := by
  induction l with
  | nil => simp [alookup]
  | cons kv rest ih =>
    obtain ⟨k0, v0⟩ := kv
    by_cases h : k0 = k
    · subst h
      simp [alookup]
    · simp [alookup, h, ih, Ne.symm h]

theorem foldl_skip_empty_key (r : Record) (keys : List IndexKey) (idx : Index)
    (h : ∀ k ∈ keys, k = "") :
    keys.foldl (fun acc k => if k = "" then acc else indexAdd acc k r) idx = idx := by
  induction keys generalizing idx with
  | nil => rfl
  | cons x xs ih =>
    have hx : x = "" := h x (List.mem_cons_self x xs)
    simp only [List.foldl_cons, hx, if_pos rfl]
    exact ih idx (fun k hk => h k (List.mem_cons_of_mem x hk))

/-! ## C3: empty index keys -/

/-- Claim C3 counterexample: inserting a record whose only computed key is
empty ("" is falsy) returns normally with the index unchanged — the record is
silently dropped, and no error of any kind is raised (the function is total),
contradicting the claim that `Index.insert` fails with an `InvalidKeyError`
(no such error exists anywhere in the source). -/
theorem index_insert_empty_key_silently_drops :
    index_insert (fun _ => [""]) [] recA = ([""], []) := rfl

/-- Claim C3 (amended): for every record and key function, `Index.insert`
silently skips every empty (falsy) computed key; in particular when all
computed keys are empty it returns the keys with the index unchanged — the
record is dropped without any error. -/
theorem index_insert_skips_empty_keys
    (mk : Record → List IndexKey) (idx : Index) (r : Record)
    (h : ∀ k ∈ mk r, k = "") :
    index_insert mk idx r = (mk r, idx) := by
  unfold index_insert
  rw [foldl_skip_empty_key r (mk r) idx h]

/-- Witness for C3 (amended) at a concrete key function, record and
non-empty index. -/
theorem index_insert_skips_empty_keys_witness :
    index_insert (fun _ => ["", ""]) [("a", [recA])] recB = (["", ""], [("a", [recA])]) :=
  index_insert_skips_empty_keys (fun _ => ["", ""]) [("a", [recA])] recB (by decide)

/-! ## C5: kmeans on empty input -/

/-- Claim C5 is violated by the code: on the empty comparisons mapping,
`kmeans` executes `comparisons.popitem()` before any emptiness check, which
raises KeyError instead of returning two empty sets. -/
theorem kmeans_empty_input_raises_keyerror :
    kmeans distL1 10 [] = .error .keyError := rfl

/-! ## C6: kmeans stopping condition -/

theorem kmeansPass_kcomps2_step1 : kmeansPass distL1 1 ks0 = .ok ks1 := by
  have d1 : distL1 [some 0] [1] = 1 := by norm_num [distL1]
  have d2 : distL1 [some 0] [0] = 0 := by norm_num [distL1]
  have d3 : distL1 [some 1] [1] = 0 := by norm_num [distL1]
  have d4 : distL1 [some 1] [0] = 1 := by norm_num [distL1]
  simp [kmeansPass, kmeansAssignStep, bumpTotals, centroidMean, ks0, ks1,
    List.range_succ, d1, d2, d3, d4]
  norm_num

theorem kmeansPass_kcomps2_step2 : kmeansPass distL1 1 ks1 = .ok ks2 := by
  have d1 : distL1 [some 0] [1] = 1 := by norm_num [distL1]
  have d2 : distL1 [some 0] [0] = 0 := by norm_num [distL1]
  have d3 : distL1 [some 1] [1] = 0 := by norm_num [distL1]
  have d4 : distL1 [some 1] [0] = 1 := by norm_num [distL1]
  simp [kmeansPass, kmeansAssignStep, bumpTotals, centroidMean, ks1, ks2,
    List.range_succ, d1, d2, d3, d4]
  norm_num

theorem kmeansPass_kcomps2_step3 : kmeansPass distL1 1 ks2 = .ok ks3 := by
  have d1 : distL1 [some 0] [1] = 1 := by norm_num [distL1]
  have d2 : distL1 [some 0] [0] = 0 := by norm_num [distL1]
  have d3 : distL1 [some 1] [1] = 0 := by norm_num [distL1]
  have d4 : distL1 [some 1] [0] = 1 := by norm_num [distL1]
  simp [kmeansPass, kmeansAssignStep, bumpTotals, centroidMean, ks2, ks3,
    List.range_succ, d1, d2, d3, d4]
  norm_num

theorem kmeansLoop_kcomps2_eval3 : kmeansLoop distL1 1 3 ks0 = .ok ks3 := by
  simp [kmeansLoop, kmeansPass_kcomps2_step1, kmeansPass_kcomps2_step2,
    kmeansPass_kcomps2_step3, ge_iff_le, Nat.zero_le]

theorem kmeansRun_kcomps2_eval3 : kmeansRun distL1 3 kcomps2 = .ok (ks3, kcomps2) := by
  have hmax : max (0:ℚ) 1 = 1 := by norm_num
  have hmin : min (0:ℚ) 1 = 0 := by norm_num
  simp only [kmeansRun, kcomps2, dictInsert, initCentroid, kmeansColumn,
    List.range_succ, List.range_zero, List.getLast?, List.dropLast,
    List.filterMap, List.map, hmax, hmin]
  norm_num
  have hks0 : ks0 = { assignments := [(1, [some 0], false), (2, [some 1], false)], high := [1], low := [0], iters := 0, nChanged := 1, changedLog := [] } := rfl
  rw [← hks0, kmeansLoop_kcomps2_eval3]

/-- Claim C6 is violated by the code: the loop guard is
`while n_changed >= 0 and iters < maxiter`, and `n_changed >= 0` is always
true, so a zero-change pass never stops the loop.  On the two-vector input
`kcomps2` with `maxiter = 3`, the assignment stabilizes in pass 1 and pass 2
already records 0 changes, yet the loop runs all 3 passes
(`changedLog = [1, 0, 0]`, final `iters = 3`). -/
theorem kmeans_ignores_convergence :
    (kmeansRun distL1 3 kcomps2).toOption.map (fun p => (p.1.iters, p.1.changedLog))
      = some (3, [1, 0, 0]) := by
  simp [kmeansRun_kcomps2_eval3, Except.toOption, ks3]

/-! ## C9: kmeans leaves the comparisons mapping unchanged -/

theorem dictInsert_eq_append (d : KComparisons) (k : ℕ) (v : SimVec)
    (hk : k ∉ d.map Prod.fst) : dictInsert d k v = d ++ [(k, v)] := by
  induction d with
  | nil => rfl
  | cons kv rest ih =>
    have hne : kv.1 ≠ k := by
      intro h
      exact hk (by simp [h])
    simp only [dictInsert, if_neg hne, List.cons_append, List.cons.injEq, true_and]
    exact ih (fun h => hk (List.mem_cons_of_mem _ h))

theorem kmeansRun_snd_eq (dist : SimVec → List ℚ → ℚ) (maxiter : ℕ)
    (comps : KComparisons) (s : KmeansState) (c2 : KComparisons)
    (h : kmeansRun dist maxiter comps = .ok (s, c2)) :
    ∃ kv, comps.getLast? = some kv ∧ c2 = dictInsert comps.dropLast kv.1 kv.2 := by
  cases hlast : comps.getLast? with
  | none =>
    unfold kmeansRun at h
    rw [hlast] at h
    cases h
  | some kv =>
    refine ⟨kv, rfl, ?_⟩
    unfold kmeansRun at h
    rw [hlast] at h
    simp only at h
    split at h
    · cases h
    · split at h
      · cases h
      · split at h
        · cases h
        · cases h
          rfl

/-- Claim C9: on every input on which `kmeans` returns normally, the
comparisons mapping after the call equals its original value — the function
pops one entry (`popitem`) to measure the vector arity and reinserts it
unchanged, and performs no other mutation of its input. -/
theorem kmeans_comparisons_frame (dist : SimVec → List ℚ → ℚ) (maxiter : ℕ)
    (comps : KComparisons) (res : (List ℕ × List ℕ) × KComparisons)
    (hnd : (comps.map Prod.fst).Nodup)
    (hok : kmeans dist maxiter comps = .ok res) : res.2 = comps := by
  cases hrun : kmeansRun dist maxiter comps with
  | error e =>
    unfold kmeans at hok
    rw [hrun] at hok
    cases hok
  | ok p =>
    obtain ⟨s, c2⟩ := p
    unfold kmeans at hok
    rw [hrun] at hok
    simp only at hok
    cases hok
    obtain ⟨kv, hlast, hc2⟩ := kmeansRun_snd_eq dist maxiter comps s c2 hrun
    have hsplit : comps.dropLast ++ [kv] = comps :=
      List.dropLast_append_getLast? kv (by rw [hlast]; rfl)
    have hkey : kv.1 ∉ comps.dropLast.map Prod.fst := by
      have hnd2 : ((comps.dropLast ++ [kv]).map Prod.fst).Nodup := by
        rw [hsplit]; exact hnd
      rw [List.map_append] at hnd2
      have := List.disjoint_of_nodup_append hnd2
      intro hmem
      exact this hmem (by simp)
    calc c2 = dictInsert comps.dropLast kv.1 kv.2 := hc2
    _ = comps.dropLast ++ [(kv.1, kv.2)] := dictInsert_eq_append _ _ _ hkey
    _ = comps := hsplit

theorem kmeansLoop_kcomps2_eval2 : kmeansLoop distL1 1 2 ks0 = .ok ks2 := by
  simp [kmeansLoop, kmeansPass_kcomps2_step1, kmeansPass_kcomps2_step2,
    ge_iff_le, Nat.zero_le]

theorem kmeansRun_kcomps2_eval2 : kmeansRun distL1 2 kcomps2 = .ok (ks2, kcomps2) := by
  have hmax : max (0:ℚ) 1 = 1 := by norm_num
  have hmin : min (0:ℚ) 1 = 0 := by norm_num
  simp only [kmeansRun, kcomps2, dictInsert, initCentroid, kmeansColumn,
    List.range_succ, List.range_zero, List.getLast?, List.dropLast,
    List.filterMap, List.map, hmax, hmin]
  norm_num
  have hks0 : ks0 = { assignments := [(1, [some 0], false), (2, [some 1], false)], high := [1], low := [0], iters := 0, nChanged := 1, changedLog := [] } := rfl
  rw [← hks0, kmeansLoop_kcomps2_eval2]

theorem kmeans_kcomps2_eval2 : kmeans distL1 2 kcomps2 = .ok (([2], [1]), kcomps2) := by
  simp [kmeans, kmeansRun_kcomps2_eval2, ks2]

/-- Witness for C9 at a concrete run that returns normally. -/
theorem kmeans_comparisons_frame_witness :
    ((([2], [1]), kcomps2) : (List ℕ × List ℕ) × KComparisons).2 = kcomps2 :=
  kmeans_comparisons_frame distL1 2 kcomps2 (([2], [1]), kcomps2)
    (by decide) kmeans_kcomps2_eval2

/-! ## Shared lemmas on the indexed-comparison fold -/

theorem mem_concatMap {α β : Type} (f : α → List β) (l : List α) (b : β) :
    b ∈ concatMap f l ↔ ∃ a ∈ l, b ∈ f a := by
  induction l with
  | nil => simp [concatMap]
  | cons x xs ih => simp [concatMap, ih]

theorem concatMap_length {α β : Type} (f : α → List β) (l : List α) :
    (concatMap f l).length = (l.map fun a => (f a).length).sum := by
  induction l with
  | nil => rfl
  | cons x xs ih => simp [concatMap, ih]

theorem cisFold_trace {ω : Type} (cmp : Record → Record → ω) :
    ∀ (ps : List (Record × Record)) (acc : Comparisons ω × List (Record × Record)),
      acc.1.map Prod.fst = acc.2 → acc.2.Nodup →
      (ps.foldl (cisStep cmp) acc).1.map Prod.fst = (ps.foldl (cisStep cmp) acc).2 ∧
        (ps.foldl (cisStep cmp) acc).2.Nodup := by
  intro ps
  induction ps with
  | nil => exact fun acc h1 h2 => ⟨h1, h2⟩
  | cons p rest ih =>
    intro acc h1 h2
    simp only [List.foldl_cons]
    cases halo : alookup acc.1 p with
    | some w =>
      have : cisStep cmp acc p = acc := by simp [cisStep, halo]
      rw [this]
      exact ih acc h1 h2
    | none =>
      have hstep : cisStep cmp acc p = (acc.1 ++ [(p, cmp p.1 p.2)], acc.2 ++ [p]) := by
        simp [cisStep, halo]
      rw [hstep]
      have hnotin : p ∉ acc.2 := by
        rw [← h1]
        exact (alookup_eq_none_iff acc.1 p).mp halo
      refine ih _ ?_ ?_
      · simp [h1]
      · simp [List.nodup_append, h2, hnotin]

theorem cisFold_length {ω : Type} (cmp : Record → Record → ω) :
    ∀ (ps : List (Record × Record)) (acc : Comparisons ω × List (Record × Record)),
      (ps.foldl (cisStep cmp) acc).1.length ≤ acc.1.length + ps.length := by
  intro ps
  induction ps with
  | nil => simp
  | cons p rest ih =>
    intro acc
    simp only [List.foldl_cons]
    refine le_trans (ih (cisStep cmp acc p)) ?_
    have : (cisStep cmp acc p).1.length ≤ acc.1.length + 1 := by
      cases halo : alookup acc.1 p with
      | some w => simp [cisStep, halo]
      | none => simp [cisStep, halo]
    simp only [List.length_cons]
    omega

theorem cisFold_keys_from_stream {ω : Type} (cmp : Record → Record → ω) :
    ∀ (ps : List (Record × Record)) (acc : Comparisons ω × List (Record × Record)),
      ∀ p ∈ (ps.foldl (cisStep cmp) acc).1, p ∈ acc.1 ∨ p.1 ∈ ps := by
  intro ps
  induction ps with
  | nil => simp
  | cons q rest ih =>
    intro acc p hp
    simp only [List.foldl_cons] at hp
    rcases ih (cisStep cmp acc q) p hp with h | h
    · cases halo : alookup acc.1 q with
      | some w =>
        rw [show cisStep cmp acc q = acc from by simp [cisStep, halo]] at h
        exact Or.inl h
      | none =>
        rw [show cisStep cmp acc q = (acc.1 ++ [(q, cmp q.1 q.2)], acc.2 ++ [q]) from by
          simp [cisStep, halo]] at h
        rcases List.mem_append.mp h with h | h
        · exact Or.inl h
        · simp only [List.mem_singleton] at h
          subst h
          simp
    · exact Or.inr (List.mem_cons_of_mem q h)

theorem pairsAux_ne {α : Type} :
    ∀ (l seen : List α), (seen ++ l).Nodup →
      ∀ p ∈ pairsAux seen l, p.1 ≠ p.2 := by
  intro l
  induction l with
  | nil => simp [pairsAux]
  | cons x xs ih =>
    intro seen hnd p hp
    simp only [pairsAux, List.mem_append, List.mem_map] at hp
    rcases hp with ⟨s, hs, rfl⟩ | hp
    · intro hxs
      have hx : x = s := hxs
      have hdisj := List.disjoint_of_nodup_append hnd
      exact hdisj hs (List.mem_cons.mpr (Or.inl hx.symm))
    · refine ih (seen ++ [x]) ?_ p hp
      rw [List.append_assoc, List.singleton_append]
      exact hnd

/-! ## C1: at-most-once invocation -/

/-- Claim C1 counterexample: with two indices whose buckets enumerate the
same two records in opposite orders, the comparison function is invoked
twice on the same unordered pair of records — once as `(recB, recA)` and once
as `(recA, recB)` — because the cache key is the ordered pair and
`compare_indexed_single` never canonicalizes it. -/
theorem compare_indexed_single_invokes_unordered_pair_twice :
    (cisRun cmp0 indBothOrders).2 = [(recB, recA), (recA, recB)] ∧
      ((cisRun cmp0 indBothOrders).2.countP
        fun p => decide (p = (recA, recB) ∨ p = (recB, recA))) = 2 := by decide

/-- Claim C1 (amended): across one indexed single-set comparison run the
comparison function is invoked at most once per distinct ORDERED pair — the
invocation trace has no duplicates, and the keys of the comparisons mapping
are exactly the invoked pairs (every invocation is cached, a cached ordered
pair is never recomputed).  The same unordered pair may still be compared
twice, as `(a,b)` and `(b,a)` (see the counterexample). -/
theorem compare_indexed_single_at_most_once_per_ordered_pair :
    ∀ (ω : Type) (cmp : Record → Record → ω) (indeces : List Index),
      (cisRun cmp indeces).2.Nodup ∧
        (cisRun cmp indeces).1.map Prod.fst = (cisRun cmp indeces).2 := by
  intro ω cmp indeces
  have h := cisFold_trace cmp (candidatePairsSingle indeces) ([], []) rfl List.nodup_nil
  exact ⟨h.2, h.1⟩

/-! ## C2: pair ordering discipline of self-linkage runs -/

/-- Claim C2 counterexample: `compare_indexed_single` on a single bucket whose
set-iteration order lists the smaller-identifier record first produces the
mapping key `(recB, recA)`, which is NOT in canonical order (`recB`'s
identifier 2 does not precede `recA`'s identifier 1). -/
theorem compare_indexed_single_key_not_canonical :
    (compare_indexed_single cmp0 indPlain).map Prod.fst = [(recB, recA)] ∧
      ¬ recB.1 < recA.1 := by decide

theorem capFold_none {ω : Type} (cmp : Record → Record → ω) :
    ∀ ps : List (Record × Record),
      ps.foldl (fun acc rr => acc.bind (fun cc => capStep cmp cc rr)) none = none := by
  intro ps
  induction ps with
  | nil => rfl
  | cons p rest ih => simpa using ih

theorem capFold_canon {ω : Type} (cmp : Record → Record → ω) :
    ∀ (ps : List (Record × Record)) (c m : Comparisons ω),
      (∀ p ∈ c, p.1.1.1 < p.1.2.1) →
      ps.foldl (fun acc rr => acc.bind (fun cc => capStep cmp cc rr)) (some c) = some m →
      ∀ p ∈ m, p.1.1.1 < p.1.2.1 := by
  intro ps
  induction ps with
  | nil =>
    intro c m hc hm
    simp only [List.foldl_nil, Option.some.injEq] at hm
    exact hm ▸ hc
  | cons rr rest ih =>
    intro c m hc hm
    simp only [List.foldl_cons, Option.some_bind] at hm
    cases hcap : capStep cmp c rr with
    | none =>
      rw [hcap, capFold_none cmp rest] at hm
      cases hm
    | some c2 =>
      rw [hcap] at hm
      refine ih c2 m ?_ hm
      unfold capStep at hcap
      by_cases hid : rr.1.1 = rr.2.1
      · simp [hid] at hcap
      · simp only [if_neg hid] at hcap
        by_cases hlt : rr.2.1 < rr.1.1
        · simp only [if_pos hlt] at hcap
          cases halo : alookup c (rr.2, rr.1) with
          | some w =>
            rw [halo] at hcap
            cases hcap
            exact hc
          | none =>
            rw [halo] at hcap
            cases hcap
            intro p hp
            rcases List.mem_append.mp hp with h | h
            · exact hc p h
            · simp only [List.mem_singleton] at h
              subst h
              exact hlt
        · simp only [if_neg hlt] at hcap
          cases halo : alookup c (rr.1, rr.2) with
          | some w =>
            rw [halo] at hcap
            cases hcap
            exact hc
          | none =>
            rw [halo] at hcap
            cases hcap
            intro p hp
            rcases List.mem_append.mp hp with h | h
            · exact hc p h
            · simp only [List.mem_singleton] at h
              subst h
              exact lt_of_le_of_ne (not_lt.mp hlt) hid

/-- Claim C2 (amended): `compare_all_pairs` does store every key in canonical
order — the first record's identifier strictly precedes the second's, so the
two records differ; but `compare_indexed_single` only guarantees that the two
records of a key are distinct (buckets are sets): its keys are in
bucket-enumeration order, not canonical order (see the counterexample). -/
theorem self_linkage_pair_discipline :
    (∀ (ω : Type) (cmp : Record → Record → ω) (records : List Record)
        (m : Comparisons ω),
      compare_all_pairs cmp records = some m →
      ∀ p ∈ m, p.1.1.1 < p.1.2.1 ∧ p.1.1 ≠ p.1.2) ∧
    (∀ (ω : Type) (cmp : Record → Record → ω) (indeces : List Index),
      (∀ idx ∈ indeces, ∀ kv ∈ idx, (kv.2 : List Record).Nodup) →
      ∀ p ∈ compare_indexed_single cmp indeces, p.1.1 ≠ p.1.2) := by
  constructor
  · intro ω cmp records m hm p hp
    have hlt := capFold_canon cmp (pairsLT records) [] m (by simp) hm p hp
    refine ⟨hlt, fun he => ?_⟩
    rw [he] at hlt
    exact lt_irrefl _ hlt
  · intro ω cmp indeces hnd p hp
    have hsrc := cisFold_keys_from_stream cmp (candidatePairsSingle indeces) ([], []) p hp
    rcases hsrc with h | h
    · cases h
    · rcases (mem_concatMap _ _ _).mp h with ⟨idx, hidx, h2⟩
      rcases (mem_concatMap _ _ _).mp h2 with ⟨kv, hkv, h3⟩
      exact pairsAux_ne kv.2 [] (by simpa using hnd idx hidx kv hkv) p.1 h3

/-- Witness for C2 (amended) at concrete runs of both drivers. -/
theorem self_linkage_pair_discipline_witness :
    (recA.1 < recB.1 ∧ recA ≠ recB) ∧ recB ≠ recA :=
  ⟨self_linkage_pair_discipline.1 ℕ cmp0 [recA, recB] [((recA, recB), 0)]
      (by decide) ((recA, recB), 0) (by decide),
   self_linkage_pair_discipline.2 ℕ cmp0 indPlain (by decide)
      ((recB, recA), 0) (by decide)⟩

/-! ## C4: the comparison-count estimate bounds the indexed runs -/

theorem pairsAux_length_core {α : Type} :
    ∀ (l seen : List α),
      2 * (pairsAux seen l).length + l.length =
        2 * seen.length * l.length + l.length * l.length := by
  intro l
  induction l with
  | nil => simp [pairsAux]
  | cons x xs ih =>
    intro seen
    have h := ih (seen ++ [x])
    simp only [pairsAux, List.length_append, List.length_map, List.length_cons,
      List.length_singleton, List.length_nil] at h ⊢
    ring_nf at h ⊢
    linarith

theorem pairsLT_length {α : Type} (l : List α) :
    (pairsLT l).length = l.length * (l.length - 1) / 2 := by
  have h := pairsAux_length_core l ([] : List α)
  simp only [pairsLT, List.length_nil, Nat.mul_zero, Nat.zero_mul, Nat.zero_add] at h ⊢
  cases hn : l.length with
  | zero =>
    rw [hn] at h
    omega
  | succ m =>
    rw [hn] at h
    have hsq : (m + 1) * (m + 1) = (m + 1) * m + (m + 1) := by ring
    have h2 : 2 * (pairsAux [] l).length = (m + 1) * m := by omega
    simp only [Nat.succ_sub_one]
    omega

theorem count_comparisons_self_foldl (idx : Index) :
    ∀ a : ℕ,
      idx.foldl (fun acc kv =>
        if 1 < kv.2.length then acc + kv.2.length * (kv.2.length - 1) / 2 else acc) a =
      a + (idx.map fun kv => kv.2.length * (kv.2.length - 1) / 2).sum := by
  induction idx with
  | nil => simp
  | cons kv rest ih =>
    intro a
    simp only [List.foldl_cons, List.map_cons, List.sum_cons]
    by_cases h : 1 < kv.2.length
    · rw [if_pos h, ih]
      omega
    · rw [if_neg h, ih]
      have h0 : kv.2.length = 0 ∨ kv.2.length = 1 := by omega
      rcases h0 with h0 | h0 <;> simp [h0]

theorem count_comparisons_self_eq (idx : Index) :
    count_comparisons_self idx = (idx.map fun kv => (pairsLT kv.2).length).sum := by
  unfold count_comparisons_self
  rw [count_comparisons_self_foldl idx 0, Nat.zero_add]
  congr 1
  apply List.map_congr_left
  intro kv _
  rw [pairsLT_length]

theorem candidatePairsSingle_length (indeces : List Index) :
    (candidatePairsSingle indeces).length = (indeces.map count_comparisons_self).sum := by
  unfold candidatePairsSingle
  rw [concatMap_length]
  congr 1
  apply List.map_congr_left
  intro idx _
  rw [concatMap_length, count_comparisons_self_eq]

theorem count_comparisons_dual_foldl (idx other : Index) :
    ∀ a : ℕ,
      idx.foldl (fun acc kv =>
        match alookup other kv.1 with
        | some b => acc + kv.2.length * b.length
        | none => acc) a =
      a + (idx.map fun kv =>
        match alookup other kv.1 with
        | some b => kv.2.length * b.length
        | none => 0).sum := by
  induction idx with
  | nil => simp
  | cons kv rest ih =>
    intro a
    simp only [List.foldl_cons, List.map_cons, List.sum_cons]
    cases halo : alookup other kv.1 with
    | some b => simp only [halo, ih]; ring
    | none => simp only [halo, ih, Nat.zero_add]

theorem crossProduct_length (l recs2 : List Record) :
    (concatMap (fun r1 => recs2.map (fun r2 => (r1, r2))) l).length =
      l.length * recs2.length := by
  rw [concatMap_length]
  simp [List.map_const']

theorem candidatePairsDual_length (ind1 ind2 : List Index) :
    (candidatePairsDual ind1 ind2).length =
      ((ind1.zip ind2).map fun pr => count_comparisons_dual pr.1 pr.2).sum := by
  unfold candidatePairsDual
  rw [concatMap_length]
  congr 1
  apply List.map_congr_left
  intro pr _
  rw [concatMap_length]
  unfold count_comparisons_dual
  rw [count_comparisons_dual_foldl pr.1 pr.2 0, Nat.zero_add]
  congr 1
  apply List.map_congr_left
  intro kv _
  cases halo : alookup pr.2 kv.1 with
  | some b => simp [halo, crossProduct_length]
  | none => simp [halo]

/-- Claim C4: the pre-execution comparison-count estimate of
`count_comparisons` (self formula per index for the single-set run, dual
formula per corresponding index pair for the dual run, summed over the
indices) is an upper bound on the number of distinct pairs actually entered
into the comparisons mapping by the corresponding indexed comparison run. -/
theorem count_comparisons_bounds_indexed_runs :
    ∀ (ω : Type) (cmp : Record → Record → ω) (indeces ind1 ind2 : List Index),
      (compare_indexed_single cmp indeces).length ≤
        (indeces.map count_comparisons_self).sum ∧
      (compare_indexed_dual cmp ind1 ind2).length ≤
        ((ind1.zip ind2).map fun pr => count_comparisons_dual pr.1 pr.2).sum := by
  intro ω cmp indeces ind1 ind2
  constructor
  · have h := cisFold_length cmp (candidatePairsSingle indeces) ([], [])
    simp only [List.length_nil, Nat.zero_add] at h
    rw [candidatePairsSingle_length] at h
    exact h
  · have h := cisFold_length cmp (candidatePairsDual ind1 ind2) ([], [])
    simp only [List.length_nil, Nat.zero_add] at h
    rw [candidatePairsDual_length] at h
    exact h

/-! ## C7 and C10: SetComparator -/

theorem setBest_foldl_eq {α : Type} (cv : Option α → Option α → Option ℚ)
    (v1 : α) :
    ∀ (big : List α) (b : ℚ),
      big.foldl (fun best v2 =>
        match cv (some v1) (some v2) with
        | none => best
        | some q => max best q) b =
      (big.filterMap fun v2 => cv (some v1) (some v2)).foldl max b := by
  intro big
  induction big with
  | nil => intro b; rfl
  | cons x xs ih =>
    intro b
    simp only [List.foldl_cons, List.filterMap_cons]
    cases hcv : cv (some v1) (some x) with
    | none => exact ih b
    | some q => simp only [List.foldl_cons]; exact ih (max b q)

theorem foldl_max_init_le {α : Type} (cv : Option α → Option α → Option ℚ)
    (v1 : α) :
    ∀ (big : List α) (b : ℚ),
      b ≤ big.foldl (fun best v2 =>
        match cv (some v1) (some v2) with
        | none => best
        | some q => max best q) b := by
  intro big
  induction big with
  | nil => intro b; exact le_refl b
  | cons x xs ih =>
    intro b
    simp only [List.foldl_cons]
    cases hcv : cv (some v1) (some x) with
    | none => exact ih b
    | some q => exact le_trans (le_max_left b q) (ih (max b q))

theorem setBest_nonneg {α : Type} (cv : Option α → Option α → Option ℚ)
    (v1 : α) (big : List α) : 0 ≤ setBest cv v1 big :=
  foldl_max_init_le cv v1 big 0

theorem set_comparator_of_ne_nil {α : Type} (cv : Option α → Option α → Option ℚ)
    (s1 s2 : List α) (h1 : s1 ≠ []) (h2 : s2 ≠ []) :
    set_comparator cv s1 s2 =
      some ((((if s2.length < s1.length then s2 else s1).map fun v1 =>
          setBest cv v1 (if s2.length < s1.length then s1 else s2)).sum) /
        (((if s2.length < s1.length then s2 else s1).length : ℚ))) := by
  have hl1 : s1.length ≠ 0 := fun h => h1 (List.length_eq_zero.mp h)
  have hl2 : s2.length ≠ 0 := fun h => h2 (List.length_eq_zero.mp h)
  by_cases hswap : s2.length < s1.length
  · simp [set_comparator, hswap, hl1, hl2]
  · simp [set_comparator, hswap, hl1, hl2]

theorem set_comparator_of_nil {α : Type} (cv : Option α → Option α → Option ℚ)
    (s1 s2 : List α) (h : s1 = [] ∨ s2 = []) :
    set_comparator cv s1 s2 = cv none none := by
  rcases h with h | h
  · subst h
    simp [set_comparator]
  · subst h
    by_cases hswap : 0 < s1.length
    · simp [set_comparator, List.length_nil, hswap]
    · simp [set_comparator, List.length_nil, hswap]

/-- Claim C7 counterexample: with a similarity primitive that scores every
pairing -1, the claimed value (average of each smaller-set element's best
score against the larger set, per `set_comparator_spec`) is -1, but the code
returns 0: the per-element accumulator starts at 0.0, so negative best scores
are clamped away. -/
theorem set_comparator_differs_from_spec_average :
    set_comparator cvNeg [(0 : ℕ)] [1] = some 0 ∧
      set_comparator_spec cvNeg [(0 : ℕ)] [1] = some (-1) := by
  constructor
  · norm_num [set_comparator, setBest, cvNeg]
  · norm_num [set_comparator_spec, setBestSpec, cvNeg]

/-- Claim C7 (amended): if either extracted-and-encoded value set is empty,
the set comparator returns the primitive's missing result `cv none none`;
otherwise it returns the average, over the smaller set (ties keep the first
record's set), of `max 0` of each element's scores against the larger set,
`None` scores skipped — i.e. each element's best score clamped below at 0.0,
not the raw best score. -/
theorem set_comparator_characterization :
    ∀ (α : Type) (cv : Option α → Option α → Option ℚ) (s1 s2 : List α),
      (s1 = [] ∨ s2 = [] → set_comparator cv s1 s2 = cv none none) ∧
      (s1 ≠ [] → s2 ≠ [] →
        set_comparator cv s1 s2 =
          some ((((if s2.length < s1.length then s2 else s1).map fun v1 =>
              ((if s2.length < s1.length then s1 else s2).filterMap fun v2 =>
                cv (some v1) (some v2)).foldl max 0).sum) /
            (((if s2.length < s1.length then s2 else s1).length : ℚ)))) := by
  intro α cv s1 s2
  constructor
  · exact set_comparator_of_nil cv s1 s2
  · intro h1 h2
    rw [set_comparator_of_ne_nil cv s1 s2 h1 h2]
    have hmap :
        List.map (fun v1 => setBest cv v1 (if s2.length < s1.length then s1 else s2))
            (if s2.length < s1.length then s2 else s1) =
          List.map (fun v1 =>
              ((if s2.length < s1.length then s1 else s2).filterMap fun v2 =>
                cv (some v1) (some v2)).foldl max 0)
            (if s2.length < s1.length then s2 else s1) :=
      List.map_congr_left
        (fun v1 _ => setBest_foldl_eq cv v1 (if s2.length < s1.length then s1 else s2) 0)
    rw [hmap]

/-- Witness for C7 (amended): the empty case returns the primitive's missing
result, and a concrete non-empty case evaluates to the clamped average 0. -/
theorem set_comparator_characterization_witness :
    set_comparator cvNeg ([] : List ℕ) [1] = cvNeg none none ∧
      set_comparator cvNeg [(0 : ℕ)] [1] = some 0 :=
  ⟨(set_comparator_characterization ℕ cvNeg [] [1]).1 (Or.inl rfl),
   ((set_comparator_characterization ℕ cvNeg [0] [1]).2 (by decide) (by decide)).trans
     (by norm_num [cvNeg, List.filterMap_cons, List.filterMap_nil])⟩

/-- Claim C10: for non-empty extracted value sets the set comparator's result
is a score (not the missing marker) and is at least 0.0, whatever the
similarity primitive returns: each element's best is initialized to 0.0, so
all-negative or all-`None` scores contribute 0.0, never a negative value. -/
theorem set_comparator_nonneg :
    ∀ (α : Type) (cv : Option α → Option α → Option ℚ) (s1 s2 : List α),
      s1 ≠ [] → s2 ≠ [] →
      set_comparator cv s1 s2 ≠ none ∧ 0 ≤ (set_comparator cv s1 s2).getD 0 := by
  intro α cv s1 s2 h1 h2
  rw [set_comparator_of_ne_nil cv s1 s2 h1 h2]
  refine ⟨by simp, ?_⟩
  simp only [Option.getD_some]
  apply div_nonneg
  · apply List.sum_nonneg
    intro x hx
    rcases List.mem_map.mp hx with ⟨v1, _, rfl⟩
    exact setBest_nonneg cv v1 _
  · exact Nat.cast_nonneg _

/-- Witness for C10 with the all-negative primitive on singleton sets. -/
theorem set_comparator_nonneg_witness :
    set_comparator cvNeg [(0 : ℕ)] [1] ≠ none ∧
      0 ≤ (set_comparator cvNeg [(0 : ℕ)] [1]).getD 0 :=
  set_comparator_nonneg ℕ cvNeg [0] [1] (by decide) (by decide)

/-! ## C8: rule-based classifier error surfacing -/

theorem classifyBoolGo_clean (rule : SimVec → PyRuleValue) :
    ∀ (l : List (ℕ × SimVec)) (ms ns us : List ℕ),
      (∀ pv ∈ l, isOtherValue (rule pv.2) = false) →
      classifyBoolGo rule ms ns us l = .ok
        (ms ++ l.filterMap (fun pv => if rule pv.2 = .pyTrue then some pv.1 else none),
         ns ++ l.filterMap (fun pv => if rule pv.2 = .pyFalse then some pv.1 else none),
         us ++ l.filterMap (fun pv => if rule pv.2 = .pyNone then some pv.1 else none)) := by
  intro l
  induction l with
  | nil => intro ms ns us _; simp [classifyBoolGo]
  | cons pv rest ih =>
    intro ms ns us hcl
    have hrest : ∀ q ∈ rest, isOtherValue (rule q.2) = false :=
      fun q hq => hcl q (List.mem_cons_of_mem pv hq)
    have hpv : isOtherValue (rule pv.2) = false := hcl pv (List.mem_cons_self pv rest)
    cases hr : rule pv.2 with
    | pyTrue =>
      simp only [classifyBoolGo, hr, List.filterMap_cons, if_pos rfl]
      rw [ih (ms ++ [pv.1]) ns us hrest]
      simp [hr]
    | pyFalse =>
      simp only [classifyBoolGo, hr, List.filterMap_cons]
      rw [ih ms (ns ++ [pv.1]) us hrest]
      simp [hr]
    | pyNone =>
      simp only [classifyBoolGo, hr, List.filterMap_cons]
      rw [ih ms ns (us ++ [pv.1]) hrest]
      simp [hr]
    | pyOther r =>
      rw [hr] at hpv
      cases hpv

theorem classifyBoolGo_error (rule : SimVec → PyRuleValue) :
    ∀ (pre : List (ℕ × SimVec)) (pv : ℕ × SimVec) (post : List (ℕ × SimVec))
      (ms ns us : List ℕ) (r : String),
      (∀ q ∈ pre, isOtherValue (rule q.2) = false) →
      rule pv.2 = .pyOther r →
      classifyBoolGo rule ms ns us (pre ++ pv :: post) =
        .error (classifyErrMsg (.pyOther r)) := by
  intro pre
  induction pre with
  | nil =>
    intro pv post ms ns us r _ hr
    simp only [List.nil_append, classifyBoolGo, hr]
  | cons q rest ih =>
    intro pv post ms ns us r hcl hr
    have hq : isOtherValue (rule q.2) = false := hcl q (List.mem_cons_self q rest)
    have hrest : ∀ x ∈ rest, isOtherValue (rule x.2) = false :=
      fun x hx => hcl x (List.mem_cons_of_mem q hx)
    cases hrq : rule q.2 with
    | pyTrue => simp only [List.cons_append, classifyBoolGo, hrq]; exact ih pv post _ ns us r hrest hr
    | pyFalse => simp only [List.cons_append, classifyBoolGo, hrq]; exact ih pv post ms _ us r hrest hr
    | pyNone => simp only [List.cons_append, classifyBoolGo, hrq]; exact ih pv post ms ns _ r hrest hr
    | pyOther s =>
      rw [hrq] at hq
      cases hq

/-- Claim C8 counterexample: the ValueError raised by `classify_bool`
interpolates only the rule's return value (`repr(ismatch)`), not the
similarity vector: two inputs that differ only in the offending vector
produce the identical error message, so the error does not identify the
offending vector as the claim (and spec) state. -/
theorem classify_bool_error_ignores_vector :
    classify_bool ruleYes [(0, vecHigh)] =
        .error "rulebased classify: yes is not True/False/None" ∧
      classify_bool ruleYes [(0, vecLow)] =
        .error "rulebased classify: yes is not True/False/None" ∧
      vecHigh ≠ vecLow :=
  ⟨rfl, rfl, by decide⟩

/-- Claim C8 (amended): `classify_bool` raises a ValueError at the first
vector (in iteration order) on which the rule returns anything other than
True/False/None — never coercing it into a class — and the error message is
descriptive but names the offending RETURN VALUE, not the vector; vectors on
which the rule returns True/False/None are partitioned into the match,
non-match and uncertain sets respectively. -/
theorem classify_bool_partition_and_error :
    (∀ (rule : SimVec → PyRuleValue) (comps : List (ℕ × SimVec)),
      (∀ pv ∈ comps, isOtherValue (rule pv.2) = false) →
      classify_bool rule comps = .ok
        (comps.filterMap (fun pv => if rule pv.2 = .pyTrue then some pv.1 else none),
         comps.filterMap (fun pv => if rule pv.2 = .pyFalse then some pv.1 else none),
         comps.filterMap (fun pv => if rule pv.2 = .pyNone then some pv.1 else none))) ∧
    (∀ (rule : SimVec → PyRuleValue) (pre : List (ℕ × SimVec)) (pv : ℕ × SimVec)
        (post : List (ℕ × SimVec)) (r : String),
      (∀ q ∈ pre, isOtherValue (rule q.2) = false) →
      rule pv.2 = .pyOther r →
      classify_bool rule (pre ++ pv :: post) = .error (classifyErrMsg (.pyOther r))) := by
  constructor
  · intro rule comps hcl
    rw [classify_bool, classifyBoolGo_clean rule comps [] [] [] hcl]
    simp
  · intro rule pre pv post r hcl hr
    exact classifyBoolGo_error rule pre pv post [] [] [] r hcl hr

/-- Witness for C8 (amended): a concrete clean run partitions into
match/non-match sets, and a concrete invalid-sentinel run raises the
ValueError naming the sentinel. -/
theorem classify_bool_partition_and_error_witness :
    classify_bool rulePos [(0, vecHigh), (1, vecLow)] = .ok ([0], [1], []) ∧
      classify_bool ruleYes [(0, vecHigh)] = .error (classifyErrMsg (.pyOther "yes")) :=
  ⟨(classify_bool_partition_and_error.1 rulePos [(0, vecHigh), (1, vecLow)]
      (by decide)).trans (by rfl),
   classify_bool_partition_and_error.2 ruleYes [] (0, vecHigh) [] "yes"
      (by decide) (by rfl)⟩
